import Mathlib

/-!
Shallow embedding of the duqtools core: the variable resolver
(`duqtools.large_scale_validation.setup`), the run-number bookkeeping
(`ExtrasV210921`), the merge routine (`duqtools.ids._merge.merge_data`)
and the Cartesian matrix expansion used by `duqtools.create`.

Values flowing through the resolver are modelled as integers; Python
truthiness of such a value is `v ≠ 0`, and an absent value (Python
`None`) is `Option.none`.
-/

/-- A single candidate of a variable spec: `- {ids: ..., path: ...}`
entries of the `paths` list in the variables listing. -/
structure SpecPath where
  ids : String
  path : String
deriving Repr, DecidableEq

/-- A variable spec from the variables listing (`IDS2JettoVariableModel`):
a name, an ordered candidate list `paths`, the `accept_if` predicates and
an optional `default` (Python `None` when unset). -/
structure VariableSpec where
  name : String
  paths : List SpecPath
  accept_if : List (Int → Bool)
  default : Option Int

/-- An IDS mapping as used by the resolver: a path-indexed lookup that
either yields a value or raises `KeyError` (modelled by `none`). -/
def Mapping : Type := String → Option Int

/-- State of one `Variables` resolver instance: the backing
`self.handle` (whose `.get` reads one IDS) together with the
`self._ids_cache` dict.  The `reads` field logs every backing read
performed by `handle.get`, for read-count instrumentation. -/
structure Variables where
  handleGet : String → Mapping
  idsCache : List (String × Mapping)
  reads : List String

/-- A fresh `Variables` instance as built by `Variables.__init__`:
empty cache, no reads performed. -/
def Variables.init (handleGet : String → Mapping) : Variables :=
  { handleGet := handleGet, idsCache := [], reads := [] }

/-- Association-list lookup, the dict access `self._ids_cache[ids]`. -/
def lookupCache (cache : List (String × Mapping)) (ids : String) :
    Option Mapping :=
  match cache with
  | [] => none
  | (k, m) :: rest => if k = ids then some m else lookupCache rest ids

/-- `Variables._get_ids`: serve `ids` from the cache when present,
otherwise read it through `self.handle.get`, record the read, and
cache the result. -/
def Variables.getIds (v : Variables) (ids : String) : Mapping × Variables :=
  match lookupCache v.idsCache ids with
  | some m => (m, v)
  | none =>
      let m := v.handleGet ids
      (m, { v with idsCache := (ids, m) :: v.idsCache,
                   reads := v.reads ++ [ids] })

/-- The candidate loop of `Variables.__getattr__`: walk `spec.paths` in
order; a candidate whose path is absent in its source (`KeyError`) is
skipped; the first candidate whose path resolves and for which every
`accept_if` predicate holds is returned, ending the loop. -/
def Variables.tryPaths (v : Variables) (accept : List (Int → Bool)) :
    List SpecPath → Option Int × Variables
  | [] => (none, v)
  | item :: rest =>
      let p := v.getIds item.ids
      match p.1 item.path with
      | none => p.2.tryPaths accept rest
      | some trial =>
          if accept.all fun condition => condition trial then (some trial, p.2)
          else p.2.tryPaths accept rest

/-- Resolution errors raised by `Variables.__getattr__`: the
`ValueError` carries the attempted spec (its message interpolates
`spec`, which includes the variable's name). -/
inductive ResolveErr where
  | valueError (spec : VariableSpec)

/-- Body of `Variables.__getattr__` after the spec lookup: start from
`value = spec.default`, overwrite with the first accepted candidate,
and raise `ValueError` when the final value is falsy (`None` or `0`). -/
def Variables.resolve (v : Variables) (spec : VariableSpec) :
    Except ResolveErr Int × Variables :=
  let p := v.tryPaths spec.accept_if spec.paths
  let value := match p.1 with
    | some trial => some trial
    | none => spec.default
  match value with
  | some x => if x = 0 then (.error (.valueError spec), p.2) else (.ok x, p.2)
  | none => (.error (.valueError spec), p.2)

/-- Stateless description of the candidate loop: the value of the first
candidate whose path resolves in its source and whose every `accept_if`
predicate passes. -/
def firstAccepted (handleGet : String → Mapping)
    (accept : List (Int → Bool)) : List SpecPath → Option Int
  | [] => none
  | item :: rest =>
      match handleGet item.ids item.path with
      | none => firstAccepted handleGet accept rest
      | some trial =>
          if accept.all fun condition => condition trial then some trial
          else firstAccepted handleGet accept rest

/-- Cache consistency: every cached mapping is what `handle.get` returns
for its key.  Holds for a fresh instance and is preserved by `getIds`. -/
def CacheConsistent (v : Variables) : Prop :=
  ∀ ids m, lookupCache v.idsCache ids = some m → m = v.handleGet ids

theorem cacheConsistent_init (hg : String → Mapping) :
    CacheConsistent (Variables.init hg) := by
  intro ids m h
  simp [Variables.init, lookupCache] at h

theorem getIds_fst (v : Variables) (h : CacheConsistent v) (ids : String) :
    (v.getIds ids).1 = v.handleGet ids := by
  unfold Variables.getIds
  cases hc : lookupCache v.idsCache ids with
  | none => rfl
  | some m => exact h ids m hc

theorem getIds_handleGet (v : Variables) (ids : String) :
    (v.getIds ids).2.handleGet = v.handleGet := by
  unfold Variables.getIds
  cases lookupCache v.idsCache ids <;> rfl

theorem getIds_consistent (v : Variables) (h : CacheConsistent v)
    (ids : String) : CacheConsistent (v.getIds ids).2 := by
  unfold Variables.getIds
  cases hc : lookupCache v.idsCache ids with
  | none =>
      intro i m hm
      simp only [lookupCache] at hm
      split at hm
      · next heq => subst heq; exact (Option.some.inj hm).symm
      · exact h i m hm
  | some m => exact h

theorem tryPaths_eq_firstAccepted (accept : List (Int → Bool))
    (paths : List SpecPath) :
    ∀ v : Variables, CacheConsistent v →
      (v.tryPaths accept paths).1 = firstAccepted v.handleGet accept paths ∧
      (v.tryPaths accept paths).2.handleGet = v.handleGet ∧
      CacheConsistent (v.tryPaths accept paths).2 := by
  induction paths with
  | nil => intro v hv; exact ⟨rfl, rfl, hv⟩
  | cons item rest ih =>
      intro v hv
      have hfst := getIds_fst v hv item.ids
      have hhg := getIds_handleGet v item.ids
      have hcons := getIds_consistent v hv item.ids
      unfold Variables.tryPaths
      unfold firstAccepted
      dsimp only
      rw [hfst]
      cases hmap : v.handleGet item.ids item.path with
      | none =>
          have := ih (v.getIds item.ids).2 hcons
          rw [hhg] at this
          simpa [hmap] using this
      | some trial =>
          by_cases hacc : accept.all (fun condition => condition trial) = true
          · simp [hmap, hacc, hhg, hcons]
          · have := ih (v.getIds item.ids).2 hcons
            rw [hhg] at this
            simpa [hmap, hacc] using this

/-- Characterization of `Variables.resolve` from any cache-consistent
state: the final value is the first accepted candidate if any, else the
default; a falsy final value (absent or `0`) raises `ValueError`. -/
theorem resolve_eq (v : Variables) (hv : CacheConsistent v)
    (spec : VariableSpec) :
    (v.resolve spec).1 =
      match (match firstAccepted v.handleGet spec.accept_if spec.paths with
             | some trial => some trial
             | none => spec.default) with
      | some x =>
          if x = 0 then Except.error (.valueError spec) else Except.ok x
      | none => Except.error (.valueError spec) := by
  unfold Variables.resolve
  dsimp only
  rw [(tryPaths_eq_firstAccepted spec.accept_if spec.paths v hv).1]
  cases firstAccepted v.handleGet spec.accept_if spec.paths with
  | none => cases spec.default with
    | none => rfl
    | some d => by_cases hd : d = 0 <;> simp [hd]
  | some t => by_cases ht : t = 0 <;> simp [ht]

/-- Example backing store where every path resolves to the value 0. -/
def hgZero : String → Mapping := fun _ _ => some 0

/-- Example backing store where no path resolves (every access raises
`KeyError`). -/
def hgNone : String → Mapping := fun _ _ => none

/-- Example backing store: source `t0` resolves every path to 7, any
other source resolves every path to 9. -/
def hgFirst : String → Mapping := fun ids _ =>
  if ids = "t0" then some 7 else some 9

/-- Spec with a single passing candidate whose value is falsy. -/
def specZero : VariableSpec :=
  { name := "t_start", paths := [⟨"t0", "time/0"⟩], accept_if := [],
    default := none }

/-- Spec whose single candidate is absent and whose default is falsy. -/
def specDefaultZero : VariableSpec :=
  { name := "t_start", paths := [⟨"t0", "missing"⟩], accept_if := [],
    default := some 0 }

/-- Spec with two candidates, no predicates, no default. -/
def specTwo : VariableSpec :=
  { name := "t_start", paths := [⟨"t0", "time/0"⟩, ⟨"t1", "time/1"⟩],
    accept_if := [], default := none }

/-- Spec with one absent candidate and a truthy default (the
`test_default` fixture of the repository, default 1337). -/
def specDefault : VariableSpec :=
  { name := "t_start", paths := [⟨"t0", "does-not-exist/0"⟩],
    accept_if := [], default := some 1337 }

/-- Spec with one absent candidate and no default (the `test_raise`
fixture of the repository). -/
def specNoDefault : VariableSpec :=
  { name := "t_start", paths := [⟨"t0", "does-not-exist/0"⟩],
    accept_if := [], default := none }

/-- Claim C1, counterexample: one candidate whose path resolves to the
value 0 and whose (empty) `accept_if` list passes, so the claim says
resolution returns 0; the code instead raises `ValueError` because the
accepted value is falsy. -/
theorem resolver_first_value_falsy_raises :
    firstAccepted hgZero specZero.accept_if specZero.paths = some 0 ∧
    ((Variables.init hgZero).resolve specZero).1 =
      Except.error (.valueError specZero) :=
  ⟨rfl, rfl⟩

/-- Claim C1 (amended): if the first candidate whose path resolves and
whose `accept_if` predicates all pass has a truthy value, resolution
returns exactly that candidate's value (later candidates are never
consulted once one is accepted), and a candidate whose path is absent
in its source is skipped rather than fatal. -/
theorem resolver_returns_first_accepted (v : Variables)
    (hv : CacheConsistent v) (spec : VariableSpec) (x : Int)
    (hacc : firstAccepted v.handleGet spec.accept_if spec.paths = some x)
    (hx : x ≠ 0) :
    (v.resolve spec).1 = Except.ok x ∧
    ∀ item rest, v.handleGet item.ids item.path = none →
      firstAccepted v.handleGet spec.accept_if (item :: rest) =
        firstAccepted v.handleGet spec.accept_if rest := by
  constructor
  · rw [resolve_eq v hv spec, hacc]
    simp [hx]
  · intro item rest h
    simp only [firstAccepted, h]

/-- Claim C1 witness: with source `t0` yielding 7 and all others 9, the
two-candidate spec resolves to the first candidate's value 7. -/
theorem resolver_returns_first_accepted_witness :
    ((Variables.init hgFirst).resolve specTwo).1 = Except.ok 7 :=
  (resolver_returns_first_accepted (Variables.init hgFirst)
    (cacheConsistent_init hgFirst) specTwo 7 (by decide) (by decide)).1

/-- Claim C3, counterexample: the spec's default is set (to the falsy
value 0) and no candidate passes; the claim says resolution returns the
default without raising, but the code raises `ValueError`. -/
theorem resolver_falsy_default_raises :
    specDefaultZero.default = some 0 ∧
    firstAccepted hgNone specDefaultZero.accept_if specDefaultZero.paths
      = none ∧
    ((Variables.init hgNone).resolve specDefaultZero).1 =
      Except.error (.valueError specDefaultZero) :=
  ⟨rfl, rfl, rfl⟩

/-- Claim C3 (amended): when no candidate passes and the spec's default
is set to a truthy value, resolution returns the default and does not
raise. -/
theorem resolver_returns_default (v : Variables) (hv : CacheConsistent v)
    (spec : VariableSpec) (d : Int) (hdef : spec.default = some d)
    (hd : d ≠ 0)
    (hnone : firstAccepted v.handleGet spec.accept_if spec.paths = none) :
    (v.resolve spec).1 = Except.ok d := by
  rw [resolve_eq v hv spec, hnone, hdef]
  simp [hd]

/-- Claim C3 witness: an absent candidate with default 1337 resolves to
1337 (the repository's `test_default` scenario). -/
theorem resolver_returns_default_witness :
    ((Variables.init hgNone).resolve specDefault).1 = Except.ok 1337 :=
  resolver_returns_default (Variables.init hgNone)
    (cacheConsistent_init hgNone) specDefault 1337 rfl (by decide) rfl

/-- Claim C5: when no candidate passes and no default is set, resolution
raises the resolution error, which carries the attempted spec (and with
it the variable's name) for diagnosis, rather than returning a value. -/
theorem resolver_raises_without_default (v : Variables)
    (hv : CacheConsistent v) (spec : VariableSpec)
    (hnone : firstAccepted v.handleGet spec.accept_if spec.paths = none)
    (hdef : spec.default = none) :
    (v.resolve spec).1 = Except.error (.valueError spec) := by
  rw [resolve_eq v hv spec, hnone, hdef]

/-- Claim C5 witness: an absent candidate and no default raise the
resolution error carrying the spec (the repository's `test_raise`
scenario). -/
theorem resolver_raises_without_default_witness :
    ((Variables.init hgNone).resolve specNoDefault).1 =
      Except.error (.valueError specNoDefault) :=
  resolver_raises_without_default (Variables.init hgNone)
    (cacheConsistent_init hgNone) specNoDefault rfl rfl

/-- Claim C9: the resolver never returns a falsy value: an `ok` result
is always nonzero, and a falsy final value raises `ValueError` both when
a falsy candidate was accepted and when a falsy default would be used. -/
theorem resolver_never_returns_falsy (v : Variables) (spec : VariableSpec)
    (hv : CacheConsistent v) :
    (∀ x : Int, (v.resolve spec).1 = Except.ok x → x ≠ 0) ∧
    (firstAccepted v.handleGet spec.accept_if spec.paths = some 0 →
      (v.resolve spec).1 = Except.error (.valueError spec)) ∧
    (firstAccepted v.handleGet spec.accept_if spec.paths = none →
      spec.default = some 0 →
      (v.resolve spec).1 = Except.error (.valueError spec)) := by
  refine ⟨?_, ?_, ?_⟩
  · intro x h
    rw [resolve_eq v hv spec] at h
    cases hacc : firstAccepted v.handleGet spec.accept_if spec.paths with
    | some t =>
        rw [hacc] at h
        by_cases ht : t = 0
        · simp [ht] at h
        · simp [ht] at h
          omega
    | none =>
        rw [hacc] at h
        cases hd : spec.default with
        | none => rw [hd] at h; simp at h
        | some d =>
            rw [hd] at h
            by_cases hd0 : d = 0
            · simp [hd0] at h
            · simp [hd0] at h
              omega
  · intro hacc
    rw [resolve_eq v hv spec, hacc]
    rfl
  · intro hacc hdef
    rw [resolve_eq v hv spec, hacc, hdef]
    rfl

/-- Claim C9 witness: a spec whose only accepted candidate has value 0
makes the resolver raise `ValueError`. -/
theorem resolver_never_returns_falsy_witness :
    ((Variables.init hgZero).resolve specZero).1 =
      Except.error (.valueError specZero) :=
  (resolver_never_returns_falsy (Variables.init hgZero) specZero
    (cacheConsistent_init hgZero)).2.1 rfl

/-- Replay a sequence of `_get_ids` lookups against one resolver
instance, threading the cache and collecting the mappings handed back
to each caller. -/
def Variables.runGets (v : Variables) :
    List String → List Mapping × Variables
  | [] => ([], v)
  | ids :: rest =>
      let p := v.getIds ids
      let q := p.2.runGets rest
      (p.1 :: q.1, q.2)

/-- Full cache invariant of one resolver instance: the cache agrees
with the backing handle, no source was read twice, and a source has
been read exactly when it is cached. -/
def CacheInv (v : Variables) : Prop :=
  CacheConsistent v ∧ v.reads.Nodup ∧
    ∀ i, i ∈ v.reads ↔ (lookupCache v.idsCache i).isSome

theorem cacheInv_init (hg : String → Mapping) :
    CacheInv (Variables.init hg) := by
  refine ⟨cacheConsistent_init hg, ?_, ?_⟩
  · simp [Variables.init]
  · intro i
    simp [Variables.init, lookupCache]

theorem getIds_inv (v : Variables) (h : CacheInv v) (ids : String) :
    CacheInv (v.getIds ids).2 ∧
    (∀ j, j ∈ (v.getIds ids).2.reads ↔ j ∈ v.reads ∨ j = ids) := by
  obtain ⟨hcons, hnodup, hiff⟩ := h
  unfold Variables.getIds
  cases hc : lookupCache v.idsCache ids with
  | some m =>
      refine ⟨⟨hcons, hnodup, hiff⟩, ?_⟩
      intro j
      constructor
      · exact fun hj => Or.inl hj
      · rintro (hj | rfl)
        · exact hj
        · exact (hiff j).2 (by rw [hc]; rfl)
  | none =>
      have hnot : ids ∉ v.reads := by
        intro hmem
        have := (hiff ids).1 hmem
        rw [hc] at this
        simp [Option.isSome] at this
      refine ⟨⟨?_, ?_, ?_⟩, ?_⟩
      · intro i m hm
        simp only [lookupCache] at hm
        split at hm
        · next heq => subst heq; exact (Option.some.inj hm).symm
        · exact hcons i m hm
      · simp [List.nodup_append, hnodup, hnot]
      · intro i
        simp only [List.mem_append, List.mem_singleton, lookupCache]
        split
        · next heq => subst heq; simp
        · next hne =>
            have : ¬ i = ids := fun hiq => hne hiq.symm
            simp [this, hiff i]
      · intro j
        simp [List.mem_append]

theorem runGets_inv :
    ∀ (reqs : List String) (v : Variables), CacheInv v →
      CacheInv (v.runGets reqs).2 ∧
      (∀ i, i ∈ (v.runGets reqs).2.reads ↔ i ∈ v.reads ∨ i ∈ reqs) ∧
      (v.runGets reqs).1 = reqs.map (fun i => v.handleGet i) ∧
      (v.runGets reqs).2.handleGet = v.handleGet := by
  intro reqs
  induction reqs with
  | nil =>
      intro v hv
      exact ⟨hv, by simp [Variables.runGets], by simp [Variables.runGets],
        rfl⟩
  | cons ids rest ih =>
      intro v hv
      have hstep := getIds_inv v hv ids
      have hfst := getIds_fst v hv.1 ids
      have hhg := getIds_handleGet v ids
      have hrest := ih (v.getIds ids).2 hstep.1
      unfold Variables.runGets
      dsimp only
      refine ⟨hrest.1, ?_, ?_, ?_⟩
      · intro i
        rw [hrest.2.1 i, hstep.2 i]
        simp [List.mem_cons]
        tauto
      · rw [hrest.2.2.1, hfst, hhg]
        rfl
      · rw [hrest.2.2.2, hhg]

/-- Claim C7: within one resolver instance, each backing source is read
at most once over any sequence of lookups: the read log has no
duplicates, a source appears in it exactly when it was looked up
(lazy population), and every lookup — including repeats — is handed the
backing mapping for its source. -/
theorem resolver_cache_reads_once (hg : String → Mapping)
    (reqs : List String) :
    ((Variables.init hg).runGets reqs).2.reads.Nodup ∧
    (∀ i, i ∈ ((Variables.init hg).runGets reqs).2.reads ↔ i ∈ reqs) ∧
    ((Variables.init hg).runGets reqs).1 = reqs.map (fun i => hg i) := by
  have h := runGets_inv reqs (Variables.init hg) (cacheInv_init hg)
  refine ⟨h.1.2.1, ?_, h.2.2.1⟩
  intro i
  rw [h.2.1 i]
  simp [Variables.init]

/-- Claim C7 witness: looking up sources `t0`, `t1`, `t0` in that order
leaves a duplicate-free read log. -/
theorem resolver_cache_reads_once_witness :
    ((Variables.init hgZero).runGets ["t0", "t1", "t0"]).2.reads.Nodup :=
  (resolver_cache_reads_once hgZero ["t0", "t1", "t0"]).1

/-- `ExtrasV210921.MAX_RUN`. -/
def MAX_RUN : Nat := 9999

/-- `ExtrasV210921.add_system_attrs` for one `(db, shot)` key: from the
current per-key counter (`run_numbers`, 1000 for a fresh key via the
defaultdict), compute `data_in_start` and `data_out_start`, advance the
counter by `2 * n_samples` (the dict update happens before the bound
check), and raise `ValueError` when the advanced counter exceeds
`MAX_RUN`.  The result pairs the advanced counter with the attributes
stored on the run namespace, or with the error. -/
def add_system_attrs (n_samples counter : Nat) :
    Nat × Except String (Nat × Nat) :=
  let data_in_start := counter
  let data_out_start := data_in_start + n_samples
  let counter' := data_out_start + n_samples
  (counter',
    if counter' > MAX_RUN then
      Except.error "Cannot write data with run number > 9999"
    else Except.ok (data_in_start, data_out_start))

/-- The per-key counter before the k-th `add_system_attrs` call for one
`(db, shot)` key: the defaultdict starts at 1000 and every call adds
`2 * n_samples`. -/
def counterBefore (n_samples k : Nat) : Nat := 1000 + 2 * n_samples * k

/-- Claim C10: the counter for a fresh key is 1000, every call advances
it by exactly `2 * n_samples`, a successful call hands out the range
start pair `(counter, counter + n_samples)`, a call whose advanced
counter exceeds `MAX_RUN = 9999` raises `ValueError`, and the run-number
ranges `[data_in_start, data_out_start + n_samples)` of two distinct
calls for the same key never overlap. -/
theorem add_system_attrs_ranges (n j k : Nat) (hjk : j < k) :
    counterBefore n 0 = 1000 ∧
    (add_system_attrs n (counterBefore n k)).1 = counterBefore n (k + 1) ∧
    (counterBefore n k + 2 * n ≤ MAX_RUN →
      (add_system_attrs n (counterBefore n k)).2 =
        Except.ok (counterBefore n k, counterBefore n k + n)) ∧
    (MAX_RUN < counterBefore n k + 2 * n →
      (add_system_attrs n (counterBefore n k)).2 =
        Except.error "Cannot write data with run number > 9999") ∧
    counterBefore n j + 2 * n ≤ counterBefore n k ∧
    (∀ x, counterBefore n j ≤ x → x < counterBefore n j + 2 * n →
      ¬(counterBefore n k ≤ x ∧ x < counterBefore n k + 2 * n)) := by
  have hmono : counterBefore n j + 2 * n ≤ counterBefore n k := by
    have h1 : 2 * n * (j + 1) ≤ 2 * n * k := Nat.mul_le_mul_left (2 * n) hjk
    have h2 : 2 * n * (j + 1) = 2 * n * j + 2 * n := by ring
    unfold counterBefore
    omega
  refine ⟨by unfold counterBefore; ring, ?_, ?_, ?_, hmono, ?_⟩
  · show counterBefore n k + n + n = counterBefore n (k + 1)
    unfold counterBefore
    ring
  · intro h
    unfold add_system_attrs
    dsimp only
    split
    · next hcond => exact absurd hcond (by unfold MAX_RUN at *; omega)
    · rfl
  · intro h
    unfold add_system_attrs
    dsimp only
    split
    · rfl
    · next hcond => exact absurd h (by unfold MAX_RUN at *; omega)
  · intro x hx1 hx2
    rintro ⟨hx3, hx4⟩
    omega

/-- Claim C10 witness: with `n_samples = 5`, the second call for a key
starts its input range at 1010 and its output range at 1015. -/
theorem add_system_attrs_ranges_witness :
    (add_system_attrs 5 (counterBefore 5 1)).2 =
      Except.ok (counterBefore 5 1, counterBefore 5 1 + 5) :=
  (add_system_attrs_ranges 5 0 1 (by decide)).2.2.1 (by decide)

/-- `itertools.product(*expanded_vars)` as used by `duqtools.create`:
the rightmost dimension advances fastest, so the tuples appear in
lexicographic order of the declared dimension order. -/
def itertoolsProduct {α : Type} : List (List α) → List (List α)
  | [] => [[]]
  | dim :: rest => dim.flatMap fun x => (itertoolsProduct rest).map (x :: ·)

theorem itertoolsProduct_length {α : Type} (dims : List (List α)) :
    (itertoolsProduct dims).length = (dims.map List.length).prod := by
  induction dims with
  | nil => rfl
  | cons dim rest ih =>
      simp [itertoolsProduct, List.length_flatMap, Function.comp_def,
        List.length_map, List.map_const', List.sum_replicate,
        smul_eq_mul, ih]

theorem itertoolsProduct_mem {α : Type} (dims : List (List α))
    (xs : List α) :
    xs ∈ itertoolsProduct dims ↔
      List.Forall₂ (fun x dim => x ∈ dim) xs dims := by
  induction dims generalizing xs with
  | nil => cases xs <;> simp [itertoolsProduct]
  | cons dim rest ih =>
      cases xs with
      | nil => simp [itertoolsProduct, List.mem_flatMap, List.mem_map]
      | cons x xs =>
          simp only [itertoolsProduct, List.mem_flatMap, List.mem_map,
            List.forall₂_cons, List.cons.injEq]
          constructor
          · rintro ⟨a, ha, p, hp, rfl, rfl⟩
            exact ⟨ha, (ih p).1 hp⟩
          · rintro ⟨hx, hxs⟩
            exact ⟨x, hx, xs, (ih xs).2 hxs, rfl, rfl⟩

theorem pairwiseLexBind {α : Type} (r : α → α → Prop) (P : List (List α))
    (hP : P.Pairwise (List.Lex r)) :
    ∀ dim : List α, dim.Pairwise r →
      (dim.flatMap fun x => P.map (x :: ·)).Pairwise (List.Lex r) := by
  intro dim
  induction dim with
  | nil => intro _; simp
  | cons a rest ihd =>
      intro hdim
      rw [List.pairwise_cons] at hdim
      rw [List.flatMap_cons, List.pairwise_append]
      refine ⟨?_, ihd hdim.2, ?_⟩
      · exact List.Pairwise.map _ (fun _ _ h => List.Lex.cons h) hP
      · intro u hu w hw
        rw [List.mem_map] at hu
        obtain ⟨p, _, rfl⟩ := hu
        rw [List.mem_flatMap] at hw
        obtain ⟨b, hb, hw⟩ := hw
        rw [List.mem_map] at hw
        obtain ⟨q, _, rfl⟩ := hw
        exact List.Lex.rel (hdim.1 b hb)

theorem itertoolsProduct_pairwise {α : Type} (r : α → α → Prop)
    (dims : List (List α)) (hs : ∀ dim ∈ dims, dim.Pairwise r) :
    (itertoolsProduct dims).Pairwise (List.Lex r) := by
  induction dims with
  | nil => simp [itertoolsProduct]
  | cons dim rest ih =>
      exact pairwiseLexBind r _
        (ih fun d hd => hs d (List.mem_cons_of_mem _ hd)) dim
        (hs dim (List.mem_cons_self _ _))

/-- Claim C8: the matrix expansion `itertools.product(*expanded_vars)`
of `create` yields exactly the full combinatorial product — its length
is the product of the dimension sizes and its members are exactly the
picks of one element per declared dimension — in deterministic
lexicographic order over the declared dimension order; in particular
dimensions of sizes two and three yield exactly these six combinations
in that order. -/
theorem create_cartesian_product {α : Type} (r : α → α → Prop)
    (dims : List (List α)) (hs : ∀ dim ∈ dims, dim.Pairwise r)
    (a0 a1 b0 b1 b2 : α) :
    (itertoolsProduct dims).length = (dims.map List.length).prod ∧
    (∀ xs, xs ∈ itertoolsProduct dims ↔
      List.Forall₂ (fun x dim => x ∈ dim) xs dims) ∧
    (itertoolsProduct dims).Pairwise (List.Lex r) ∧
    itertoolsProduct [[a0, a1], [b0, b1, b2]] =
      [[a0, b0], [a0, b1], [a0, b2], [a1, b0], [a1, b1], [a1, b2]] :=
  ⟨itertoolsProduct_length dims, itertoolsProduct_mem dims,
    itertoolsProduct_pairwise r dims hs, rfl⟩

/-- Claim C8 witness: dimensions `[0, 1]` and `[0, 1, 2]` expand to the
six lexicographically ordered index pairs. -/
theorem create_cartesian_product_witness :
    itertoolsProduct [[0, 1], [0, 1, 2]] =
      [[0, 0], [0, 1], [0, 2], [1, 0], [1, 1], [1, 2]] ∧
    (itertoolsProduct [[(0 : ℕ), 1], [0, 1, 2]]).Pairwise
      (List.Lex (· < ·)) := by
  have h := create_cartesian_product (fun a b : ℕ => a < b)
    [[0, 1], [0, 1, 2]] (by decide) 0 1 0 1 2
  exact ⟨h.2.2.2, h.2.2.1⟩

/-- Exact value written into an output cell by the merge.  Data values
are rationals here; `mean + stdev` is kept exactly as the pair of the
mean and the sample variance (denoting mean + sqrt variance), and `nan`
is the missing value pandas produces when the sample standard deviation
of a single observation is taken (`std` with its default `ddof = 1`). -/
inductive CellVal where
  | q (x : ℚ)
  | plusSqrt (mean variance : ℚ)
  | nan
deriving Repr, DecidableEq

/-- One row of the tabular data handed to `merge_data`: the `tstep`
column, the value of the grid column `x_val`, and the data columns
keyed by variable name. -/
structure Row where
  tstep : Nat
  x : ℚ
  ys : String → ℚ

/-- Order on `(tstep, x)` group keys; pandas sorts group keys. -/
def keyLE (a b : Nat × ℚ) : Prop :=
  a.1 < b.1 ∨ (a.1 = b.1 ∧ a.2 ≤ b.2)

instance : DecidableRel keyLE := fun a b => by
  unfold keyLE
  infer_instance

/-- Keys of `data.groupby(['tstep', x_val])`: the distinct
`(tstep, grid value)` pairs, in pandas' sorted group order. -/
def groupKeys (df : List Row) : List (Nat × ℚ) :=
  ((df.map fun r => (r.tstep, r.x)).dedup).insertionSort keyLE

/-- The rows of one `(tstep, grid value)` group. -/
def groupRows (df : List Row) (k : Nat × ℚ) : List Row :=
  df.filter fun r => decide (r.tstep = k.1 ∧ r.x = k.2)

/-- The distinct time steps, in the sorted order of
`merged.groupby('tstep')`. -/
def tstepsOf (df : List Row) : List Nat :=
  ((df.map fun r => r.tstep).dedup).insertionSort (· ≤ ·)

/-- Column mean of one group (pandas `mean`). -/
def colMean (rows : List Row) (y : String) : ℚ :=
  (rows.map fun r => r.ys y).sum / (rows.length : ℚ)

/-- Sample variance of one group (the square of pandas `std`, default
`ddof = 1`): `none` is the NaN produced for fewer than two rows. -/
def colVariance (rows : List Row) (y : String) : Option ℚ :=
  if rows.length ≤ 1 then none
  else some ((rows.map fun r => (r.ys y - colMean rows y) ^ 2).sum /
    ((rows.length : ℚ) - 1))

/-- The aggregated `mean` cell of one group. -/
def meanCell (rows : List Row) (y : String) : CellVal :=
  .q (colMean rows y)

/-- The aggregated `mean + stdev` cell of one group: NaN-propagating,
with the square root kept symbolic. -/
def errCell (rows : List Row) (y : String) : CellVal :=
  match colVariance rows y with
  | none => .nan
  | some v => .plusSqrt (colMean rows y) v

/-- Observable effects of one `merge_data` call, in program order. -/
inductive MergeEvent where
  | rebaseIds
  | rebaseTime
  | write (key : String) (val : List CellVal)
  | sync
deriving Repr, DecidableEq

/-- The staged writes of `merge_data`: for each data variable `y` and
each time step `t`, the per-group means at `pfx/t/y` and the
`mean + stdev` cells at `pfx/t/y_error_upper`, groups ordered by grid
value within the time step. -/
def mergeWrites (df : List Row) (y_vals : List String) (pfx : String) :
    List MergeEvent :=
  y_vals.flatMap fun y =>
    (tstepsOf df).flatMap fun t =>
      let ks := (groupKeys df).filter fun k => k.1 == t
      [MergeEvent.write (pfx ++ "/" ++ toString t ++ "/" ++ y)
          (ks.map fun k => meanCell (groupRows df k) y),
        MergeEvent.write
          (pfx ++ "/" ++ toString t ++ "/" ++ y ++ "_error_upper")
          (ks.map fun k => errCell (groupRows df k) y)]

/-- `duqtools.ids._merge.merge_data`, shallowly embedded.  The two
rebase engines (`rebase_on_ids`, `rebase_on_time`) live outside this
repository's sources and are taken as parameters; `input_data` is the
path-indexed IDS tree of the target (`get_ids_tree(target)`); `pfx` is
the source's `prefix` parameter (default `profiles_1d`).  The result is
the trace of effects: the grid rebase, then the time rebase, then the
staged writes of the aggregated columns, then the `sync` commit; a
missing common basis or time in the template raises `KeyError`. -/
def merge_data
    (rebase_on_ids : List Row → String → List String → List ℚ → List Row)
    (rebase_on_time : List Row → List String → List ℚ → List Row)
    (input_data : String → Option (List ℚ))
    (data : List Row) (x_val : String) (y_vals : List String)
    (pfx : String) : Except String (List MergeEvent) :=
  match input_data (pfx ++ "/0/" ++ x_val) with
  | none => .error "KeyError: common basis missing from template"
  | some common_basis =>
    let data1 := rebase_on_ids data x_val y_vals common_basis
    match input_data "time" with
    | none => .error "KeyError: time missing from template"
    | some common_time =>
      let data2 := rebase_on_time data1 (x_val :: y_vals) common_time
      .ok ([.rebaseIds, .rebaseTime] ++ mergeWrites data2 y_vals pfx ++
        [.sync])

theorem merge_data_ok
    (R1 : List Row → String → List String → List ℚ → List Row)
    (R2 : List Row → List String → List ℚ → List Row)
    (tree : String → Option (List ℚ)) (data : List Row) (x_val : String)
    (y_vals : List String) (pfx : String) (cb ct : List ℚ)
    (hcb : tree (pfx ++ "/0/" ++ x_val) = some cb)
    (hct : tree "time" = some ct) :
    merge_data R1 R2 tree data x_val y_vals pfx =
      Except.ok ([.rebaseIds, .rebaseTime] ++
        mergeWrites (R2 (R1 data x_val y_vals cb) (x_val :: y_vals) ct)
          y_vals pfx ++ [.sync]) := by
  unfold merge_data
  rw [hcb, hct]

/-- Claim C6: in every successful execution of `merge_data` both rebase
calls happen, and the grid rebase (`rebase_on_ids`) strictly precedes
the time rebase (`rebase_on_time`) in the effect trace. -/
theorem merge_grid_rebase_precedes_time_rebase
    (R1 : List Row → String → List String → List ℚ → List Row)
    (R2 : List Row → List String → List ℚ → List Row)
    (tree : String → Option (List ℚ)) (data : List Row) (x_val : String)
    (y_vals : List String) (pfx : String) (tr : List MergeEvent)
    (h : merge_data R1 R2 tree data x_val y_vals pfx = Except.ok tr) :
    MergeEvent.rebaseIds ∈ tr ∧ MergeEvent.rebaseTime ∈ tr ∧
    tr.indexOf MergeEvent.rebaseIds < tr.indexOf MergeEvent.rebaseTime := by
  unfold merge_data at h
  cases hcb : tree (pfx ++ "/0/" ++ x_val) with
  | none => rw [hcb] at h; cases h
  | some cb =>
      rw [hcb] at h
      dsimp only at h
      cases hct : tree "time" with
      | none => rw [hct] at h; cases h
      | some ct =>
          rw [hct] at h
          dsimp only at h
          obtain rfl := Except.ok.inj h
          refine ⟨by simp, by simp, ?_⟩
          simp [List.indexOf_cons]

/-- Claim C4: for every merge step whose template provides the common
grid basis (`pfx/0/x_val`) and time, the merge groups the combined
rebased rows by (time step, grid value), computes the pandas mean and
sample standard deviation per data variable across each group's rows,
writes for every data variable `y` and time step `t` the group means to
`pfx/t/y` and the mean + stdev cells to `pfx/t/y_error_upper` into the
output mapping, and commits the staged writes via `sync` as the final
effect. -/
theorem merge_data_aggregates
    (R1 : List Row → String → List String → List ℚ → List Row)
    (R2 : List Row → List String → List ℚ → List Row)
    (tree : String → Option (List ℚ)) (data : List Row) (x_val : String)
    (y_vals : List String) (pfx : String) (cb ct : List ℚ)
    (df2 : List Row) (tr : List MergeEvent)
    (hcb : tree (pfx ++ "/0/" ++ x_val) = some cb)
    (hct : tree "time" = some ct)
    (hdf2 : df2 = R2 (R1 data x_val y_vals cb) (x_val :: y_vals) ct)
    (h : merge_data R1 R2 tree data x_val y_vals pfx = Except.ok tr) :
    tr.getLast? = some MergeEvent.sync ∧
    ∀ y ∈ y_vals, ∀ t ∈ tstepsOf df2,
      MergeEvent.write (pfx ++ "/" ++ toString t ++ "/" ++ y)
        (((groupKeys df2).filter fun k => k.1 == t).map fun k =>
          CellVal.q (colMean (groupRows df2 k) y)) ∈ tr ∧
      MergeEvent.write (pfx ++ "/" ++ toString t ++ "/" ++ y ++
          "_error_upper")
        (((groupKeys df2).filter fun k => k.1 == t).map fun k =>
          errCell (groupRows df2 k) y) ∈ tr := by
  rw [merge_data_ok R1 R2 tree data x_val y_vals pfx cb ct hcb hct] at h
  obtain rfl := Except.ok.inj h
  subst hdf2
  constructor
  · rw [List.getLast?_concat]
  · intro y hy t ht
    constructor
    · apply List.mem_append_left
      apply List.mem_append_right
      unfold mergeWrites
      rw [List.mem_flatMap]
      refine ⟨y, hy, ?_⟩
      rw [List.mem_flatMap]
      refine ⟨t, ht, ?_⟩
      exact List.mem_cons_self _ _
    · apply List.mem_append_left
      apply List.mem_append_right
      unfold mergeWrites
      rw [List.mem_flatMap]
      refine ⟨y, hy, ?_⟩
      rw [List.mem_flatMap]
      refine ⟨t, ht, ?_⟩
      exact List.mem_cons_of_mem _ (List.mem_cons_self _ _)

/-- Identity grid rebase: data already on the common basis stays put
(the rebase round-trip property of the spec). -/
def idRebaseIds : List Row → String → List String → List ℚ → List Row :=
  fun df _ _ _ => df

/-- Identity time rebase. -/
def idRebaseTime : List Row → List String → List ℚ → List Row :=
  fun df _ _ => df

/-- Template tree of the single-run example: grid `[0]` at
`profiles_1d/0/x` and time `[0]`. -/
def oneRunTree : String → Option (List ℚ) := fun p =>
  if p = "profiles_1d/0/x" then some [0]
  else if p = "time" then some [0] else none

/-- The single run's single row: time step 0, grid point 0, value 5 in
every data column. -/
def oneRunRow : Row := { tstep := 0, x := 0, ys := fun _ => 5 }

/-- Claim C2, counterexample: merging exactly one run writes the run's
value 5 as the mean but a NaN `_error_upper` cell — the pandas sample
standard deviation (`ddof = 1`) of a single observation — instead of
the claimed standard deviation 0 (which would have written the cell
mean + 0). -/
theorem merge_single_run_writes_nan :
    merge_data idRebaseIds idRebaseTime oneRunTree [oneRunRow] "x" ["y"]
      "profiles_1d" =
      Except.ok [.rebaseIds, .rebaseTime,
        .write "profiles_1d/0/y" [.q 5],
        .write "profiles_1d/0/y_error_upper" [.nan], .sync] ∧
    CellVal.nan ≠ CellVal.plusSqrt 5 0 := by
  constructor
  · rw [merge_data_ok idRebaseIds idRebaseTime oneRunTree [oneRunRow] "x"
      ["y"] "profiles_1d" [0] [0] rfl rfl]
    have hm : meanCell [oneRunRow] "y" = CellVal.q 5 := by
      unfold meanCell colMean oneRunRow
      norm_num
    have hw : mergeWrites [oneRunRow] ["y"] "profiles_1d" =
        [.write "profiles_1d/0/y" [meanCell [oneRunRow] "y"],
         .write "profiles_1d/0/y_error_upper" [errCell [oneRunRow] "y"]] :=
      rfl
    simp only [idRebaseIds, idRebaseTime]
    rw [hw, hm]
    rfl
  · decide

/-- Claim C2 (amended): for a merge over exactly one run — every
(time step, grid value) group of the rebased data holds exactly one
row — the aggregated mean of each group is that run's value there, but
the sample standard deviation (pandas `std`, `ddof = 1`) of the single
observation is NaN, not 0: every `_error_upper` cell written for any
data variable and time step is NaN. -/
theorem merge_single_run_stats
    (R1 : List Row → String → List String → List ℚ → List Row)
    (R2 : List Row → List String → List ℚ → List Row)
    (tree : String → Option (List ℚ)) (data : List Row) (x_val : String)
    (y_vals : List String) (pfx : String) (cb ct : List ℚ)
    (df2 : List Row) (tr : List MergeEvent)
    (hcb : tree (pfx ++ "/0/" ++ x_val) = some cb)
    (hct : tree "time" = some ct)
    (hdf2 : df2 = R2 (R1 data x_val y_vals cb) (x_val :: y_vals) ct)
    (h : merge_data R1 R2 tree data x_val y_vals pfx = Except.ok tr)
    (hsingle : ∀ k ∈ groupKeys df2, ∃ r, groupRows df2 k = [r]) :
    (∀ k ∈ groupKeys df2, ∀ y,
      errCell (groupRows df2 k) y = CellVal.nan ∧
      ∃ r, groupRows df2 k = [r] ∧
        meanCell (groupRows df2 k) y = CellVal.q (r.ys y)) ∧
    (∀ y ∈ y_vals, ∀ t ∈ tstepsOf df2,
      MergeEvent.write
        (pfx ++ "/" ++ toString t ++ "/" ++ y ++ "_error_upper")
        (List.replicate
          ((groupKeys df2).filter fun k => k.1 == t).length CellVal.nan)
        ∈ tr) := by
  have hpoint : ∀ k ∈ groupKeys df2, ∀ y,
      errCell (groupRows df2 k) y = CellVal.nan ∧
      ∃ r, groupRows df2 k = [r] ∧
        meanCell (groupRows df2 k) y = CellVal.q (r.ys y) := by
    intro k hk y
    obtain ⟨r, hr⟩ := hsingle k hk
    rw [hr]
    refine ⟨rfl, r, rfl, ?_⟩
    unfold meanCell colMean
    norm_num
  refine ⟨hpoint, ?_⟩
  intro y hy t ht
  rw [merge_data_ok R1 R2 tree data x_val y_vals pfx cb ct hcb hct,
    ← hdf2] at h
  obtain rfl := Except.ok.inj h
  have hmap : ((groupKeys df2).filter fun k => k.1 == t).map
      (fun k => errCell (groupRows df2 k) y) =
      List.replicate ((groupKeys df2).filter fun k => k.1 == t).length
        CellVal.nan := by
    rw [← List.map_const']
    apply List.map_congr_left
    intro k hk
    exact (hpoint k (List.mem_of_mem_filter hk) y).1
  rw [← hmap]
  apply List.mem_append_left
  apply List.mem_append_right
  unfold mergeWrites
  rw [List.mem_flatMap]
  refine ⟨y, hy, ?_⟩
  rw [List.mem_flatMap]
  refine ⟨t, ht, ?_⟩
  exact List.mem_cons_of_mem _ (List.mem_cons_self _ _)

/-- Claim C2 witness: in the single-run example the `_error_upper` cell
of the only group is NaN. -/
theorem merge_single_run_stats_witness :
    errCell (groupRows [oneRunRow] (0, 0)) "y" = CellVal.nan :=
  ((merge_single_run_stats idRebaseIds idRebaseTime oneRunTree
      [oneRunRow] "x" ["y"] "profiles_1d" [0] [0] [oneRunRow] _ rfl rfl
      rfl
      (merge_data_ok idRebaseIds idRebaseTime oneRunTree [oneRunRow]
        "x" ["y"] "profiles_1d" [0] [0] rfl rfl)
      (by
        intro k hk
        have hk' : k ∈ [((0 : Nat), (0 : ℚ))] := hk
        rw [List.mem_singleton] at hk'
        subst hk'
        exact ⟨oneRunRow, rfl⟩)).1 (0, 0)
    (by
      show (0, 0) ∈ [((0 : Nat), (0 : ℚ))]
      exact List.mem_singleton.mpr rfl) "y").1

/-- Claim C4 witness: the single-run merge commits via `sync` as its
final effect. -/
theorem merge_data_aggregates_witness :
    (([MergeEvent.rebaseIds, MergeEvent.rebaseTime] ++
        mergeWrites [oneRunRow] ["y"] "profiles_1d" ++
        [MergeEvent.sync] : List MergeEvent)).getLast? =
      some MergeEvent.sync :=
  (merge_data_aggregates idRebaseIds idRebaseTime oneRunTree [oneRunRow]
    "x" ["y"] "profiles_1d" [0] [0] [oneRunRow] _ rfl rfl rfl
    (merge_data_ok idRebaseIds idRebaseTime oneRunTree [oneRunRow] "x"
      ["y"] "profiles_1d" [0] [0] rfl rfl)).1

/-- Claim C6 witness: in the single-run example the grid rebase
precedes the time rebase in the trace. -/
theorem merge_grid_precedes_time_witness :
    ([MergeEvent.rebaseIds, MergeEvent.rebaseTime] ++
        mergeWrites [oneRunRow] ["y"] "profiles_1d" ++
        [MergeEvent.sync] : List MergeEvent).indexOf MergeEvent.rebaseIds <
      ([MergeEvent.rebaseIds, MergeEvent.rebaseTime] ++
        mergeWrites [oneRunRow] ["y"] "profiles_1d" ++
        [MergeEvent.sync] : List MergeEvent).indexOf
        MergeEvent.rebaseTime :=
  (merge_grid_rebase_precedes_time_rebase idRebaseIds idRebaseTime
    oneRunTree [oneRunRow] "x" ["y"] "profiles_1d" _
    (merge_data_ok idRebaseIds idRebaseTime oneRunTree [oneRunRow] "x"
      ["y"] "profiles_1d" [0] [0] rfl rfl)).2.2
